import Mathlib

/-!
Shallow embedding of `file-uploader/upload_file.py` (cognite-file-uploader).

Filesystem paths are modelled as lists of path components (the `parts` of a
`pathlib.Path` without the root anchor), and a filesystem snapshot as a list
of entries (component list plus a regular-file flag).  The remote store is an
opaque boundary, so its two operations — `client.raw.rows.insert` and
`client.files.upload` — enter the model as function parameters returning
`Except`, mirroring Python exceptions.  The observable behaviour of the
upload stages is captured as a list of events mirroring the log calls.

String rendering of a relative path (`str(path.relative_to(root))`) and
string splitting (`folder_path.split(os.path.sep)`) are implemented by
structural recursion over the character list of the string, matching POSIX
`pathlib` semantics: joining components with the separator; `str` of the
empty relative path is "."; splitting on a separator character with Python
`str.split` semantics.
-/

namespace FileUploader

/-- A filesystem path: the list of its components (no root anchor, no empty
components; `pathlib` also normalises away "." components). -/
abbrev SPath := List String

/-- The base name of a path (`path.name`); "" for the empty path, as in
`pathlib`. -/
def pname (p : SPath) : String := p.getLastD ""

/-- Join character-list components with the '/' separator. -/
def joinSegs : List (List Char) → List Char
  | [] => []
  | [a] => a
  | a :: b :: rest => a ++ '/' :: joinSegs (b :: rest)

/-- Render a relative path as a string: components joined by '/', and "."
for the empty relative path — the behaviour of `str` on a relative
`pathlib.PurePosixPath`. -/
def renderPath (l : List String) : String :=
  if l = [] then "." else String.mk (joinSegs (l.map String.data))

/-- Model of `path.relative_to(root)`: purely lexical prefix removal;
`pathlib` raises `ValueError` when `root` is not a prefix, modelled by
`none`. -/
def relativeTo (p root : SPath) : Option SPath :=
  if root.isPrefixOf p then some (p.drop root.length) else none

/-- Helper for `pysplit`: accumulate the current piece (reversed). -/
def splitCharAux (sep : Char) : List Char → List Char → List (List Char)
  | [], acc => [acc.reverse]
  | c :: rest, acc =>
    if c = sep then acc.reverse :: splitCharAux sep rest []
    else splitCharAux sep rest (c :: acc)

/-- Python `s.split(sep)` for a one-character separator. -/
def pysplit (sep : Char) (s : String) : List String :=
  (splitCharAux sep s.data []).map String.mk

/-- Python `s.startswith(".")`. -/
def startsWithDot (s : String) : Bool :=
  match s.data with
  | [] => false
  | c :: _ => c == '.'

/-- Whether a rendered path string is absolute (begins with '/'). -/
def isAbsolute (s : String) : Bool :=
  match s.data with
  | [] => false
  | c :: _ => c == '/'

/-- A well-formed path component, as `pathlib` produces them: non-empty,
free of the separator, and not the "." sentinel (normalised away). -/
def wfSeg (s : String) : Prop := s.data ≠ [] ∧ '/' ∉ s.data ∧ s.data ≠ ['.']

instance wfSegDecidable (s : String) : Decidable (wfSeg s) :=
  inferInstanceAs (Decidable (s.data ≠ [] ∧ '/' ∉ s.data ∧ s.data ≠ ['.']))

/-- Python dict assignment `d[k] = v` on an insertion-ordered association
list: replace in place when the key exists, append otherwise. -/
def dictInsert (d : List (String × String)) (k v : String) :
    List (String × String) :=
  if d.any (fun kv => kv.1 == k) then
    d.map (fun kv => if kv.1 == k then (k, v) else kv)
  else d ++ [(k, v)]

/-- Python `d.update(u)` on insertion-ordered association lists. -/
def dictUpdate (d u : List (String × String)) : List (String × String) :=
  u.foldl (fun acc kv => dictInsert acc kv.1 kv.2) d

/-- The container object for all data extracted from the filesystem for a
single file (class `FileWithMeta`). -/
structure FileWithMeta where
  path : SPath
  external_id : String
  name : String
  mime_type : Option String
  metadata : List (String × String)
deriving DecidableEq

/-- Model of `FileWithMeta.from_path`.  `mime` stands for
`mimetypes.guess_type` (a lookup in a static extension table, an external
boundary) and `resolve` for `Path.resolve` (filesystem canonicalisation, an
external boundary).  `none` models the `ValueError` raised by `relative_to`
when `path` is not under `root_path`. -/
def FileWithMeta.from_path (mime : String → Option String)
    (resolve : SPath → SPath) (path root_path : SPath) :
    Option FileWithMeta :=
  match relativeTo path root_path with
  | none => none
  | some rel =>
    let external_id := renderPath rel
    let mime_type := mime (pname path)
    let folder_path := renderPath rel.dropLast
    let metadata :=
      if folder_path ≠ "" then
        dictUpdate [("folder", folder_path)]
          ((pysplit '/' folder_path).enum.map
            (fun io => ("col" ++ toString io.1, io.2)))
      else []
    some ⟨resolve path, external_id, pname path, mime_type, metadata⟩

/-- Model of `FileWithMeta.raw_columns`: the flat row dict, with Python
truthiness on `self.mime_type` (absent or empty string both skip the key). -/
def FileWithMeta.raw_columns (o : FileWithMeta) : List (String × String) :=
  let base := [("name", o.name), ("external_id", o.external_id)]
  let base2 :=
    match o.mime_type with
    | some m => if m = "" then base else dictInsert base "mime_type" m
    | none => base
  dictUpdate base2 o.metadata

/-- A sample static extension table standing in for `mimetypes`, used for
concrete evaluations; the claims quantify over the table. -/
def mimeDefault (filename : String) : Option String :=
  match (pysplit '.' filename).getLastD "" with
  | "pdf" => some "application/pdf"
  | "txt" => some "text/plain"
  | _ => none

/-- One filesystem entry: its path and whether it is a regular file
(`Path.is_file`, which follows symlinks). -/
structure Entry where
  segs : SPath
  isFile : Bool
deriving DecidableEq

/-- A filesystem snapshot. -/
abbrev FS := List Entry

/-- Model of `path.is_file()` against the snapshot. -/
def is_file (fs : FS) (p : SPath) : Bool :=
  fs.any (fun e => e.segs == p && e.isFile)

/-- Model of `root_path.rglob(pattern)` / `root_path.glob(pattern)` for a
filename pattern: entries strictly below the root whose base name matches,
at any depth when recursive, at depth one otherwise.  The pattern is the
opaque shell-glob match on the base name. -/
def glob (fs : FS) (root : SPath) (pat : String → Bool) (recursive : Bool) :
    List SPath :=
  (fs.map Entry.segs).filter (fun p =>
    root.isPrefixOf p &&
      (if recursive then decide (root.length < p.length)
       else p.length == root.length + 1) &&
      pat (pname p))

/-- Model of `match_files`: glob then keep regular files whose base name
does not start with ".". -/
def match_files (fs : FS) (root : SPath) (pat : String → Bool)
    (recursive : Bool) : List SPath :=
  (glob fs root pat recursive).filter
    (fun p => is_file fs p && !startsWithDot (pname p))

/-- Model of `convert_to_file_objects`: element-wise `from_path`; an
exception from any element aborts the whole conversion (`none`). -/
def convert_to_file_objects (mime : String → Option String)
    (resolve : SPath → SPath) (root : SPath) :
    List SPath → Option (List FileWithMeta)
  | [] => some []
  | p :: ps =>
    match FileWithMeta.from_path mime resolve p root,
        convert_to_file_objects mime resolve root ps with
    | some o, some os => some (o :: os)
    | _, _ => none

/-- One row of the raw table (`Row(key, columns)`). -/
structure Row where
  key : String
  columns : List (String × String)
deriving DecidableEq

/-- The single batch insert issued by the metadata publisher
(`client.raw.rows.insert(database, table, rows, ensure_parent=True)`). -/
structure InsertOp where
  database : String
  table : String
  rows : List Row
  ensure_parent : Bool
deriving DecidableEq

/-- Model of `upload_metadata_to_raw`: build one row per object, keyed by
its `external_id`, and submit them as a single batch insert with
`ensure_parent=True`. -/
def upload_metadata_to_raw (objects : List FileWithMeta)
    (database table : String) : InsertOp :=
  ⟨database, table,
   objects.map (fun o => ⟨o.external_id, o.raw_columns⟩), true⟩

/-- The request handed to `client.files.upload` for one object. -/
structure UploadReq where
  path : SPath
  name : String
  external_id : String
  mime_type : Option String
  metadata : Option (List (String × String))
  overwrite : Bool
deriving DecidableEq

/-- The upload request `upload_files_to_cdf` builds for one object. -/
def mkReq (overwrite ignore_meta : Bool) (o : FileWithMeta) : UploadReq :=
  ⟨o.path, o.name, o.external_id, o.mime_type,
   if ignore_meta then none else some o.metadata, overwrite⟩

/-- Observable events of the two upload stages, mirroring the log calls and
the remote operations issued. -/
inductive Event where
  | uploadStart (path : SPath)
  | uploadError (external_id : String) (err : String)
  | uploadDone (external_id : String)
  | insertCall (op : InsertOp)
  | insertDone (n : Nat) (database table : String)
deriving DecidableEq

/-- The per-file loop of `upload_files_to_cdf`: for the i-th object, log the
start, call the remote upload, and catch a `CogniteAPIError` (modelled as
`Except.error`) by logging it with the object's `external_id`; any outcome
continues with the next object. -/
def uploadLoop (remote : Nat → UploadReq → Except String String)
    (overwrite ignore_meta : Bool) : Nat → List FileWithMeta → List Event
  | _, [] => []
  | i, o :: rest =>
    Event.uploadStart o.path ::
      (match remote i (mkReq overwrite ignore_meta o) with
       | .error e => Event.uploadError o.external_id e
       | .ok _ => Event.uploadDone o.external_id) ::
      uploadLoop remote overwrite ignore_meta (i + 1) rest

/-- Model of `upload_files_to_cdf`.  The function is total: every remote
error is caught inside the loop, so the call always returns (its event
log). -/
def upload_files_to_cdf (remote : Nat → UploadReq → Except String String)
    (objects : List FileWithMeta) (overwrite ignore_meta : Bool) :
    List Event :=
  uploadLoop remote overwrite ignore_meta 0 objects

/-- The start event of an upload attempt, if any. -/
def startPath : Event → Option SPath
  | .uploadStart p => some p
  | _ => none

/-- The paths whose upload was attempted, in order. -/
def starts (evs : List Event) : List SPath := evs.filterMap startPath

/-- The blob-upload stage of the orchestrator
(`if upload_to_cdf: upload_files_to_cdf(...)`). -/
def cdfStage (remote : Nat → UploadReq → Except String String)
    (upload_to_cdf : Bool) (objects : List FileWithMeta)
    (overwrite ignore_meta : Bool) : List Event :=
  if upload_to_cdf then upload_files_to_cdf remote objects overwrite ignore_meta
  else []

/-- Model of `process_path`: match, convert, then (when enabled) the raw
stage followed by the blob stage.  `insertResult` models the outcome of
`client.raw.rows.insert`; an `Except.error` is the `CogniteAPIError` that
`upload_metadata_to_raw` lets propagate — `process_path` has no handler for
it, so the run ends there with the events accumulated so far. -/
def process_path (fs : FS) (mime : String → Option String)
    (resolve : SPath → SPath) (insertResult : InsertOp → Except String Unit)
    (remote : Nat → UploadReq → Except String String)
    (root : SPath) (pat : String → Bool) (recursive : Bool)
    (upload_to_cdf upload_to_raw overwrite ignore_meta : Bool)
    (raw_db raw_table : String) : List Event × Except String Unit :=
  match convert_to_file_objects mime resolve root
      (match_files fs root pat recursive) with
  | none => ([], .error "FilesystemError")
  | some file_objects =>
    if upload_to_raw then
      let op := upload_metadata_to_raw file_objects raw_db raw_table
      match insertResult op with
      | .error e => ([Event.insertCall op], .error e)
      | .ok _ =>
        (Event.insertCall op :: Event.insertDone op.rows.length raw_db raw_table ::
           cdfStage remote upload_to_cdf file_objects overwrite ignore_meta,
         .ok ())
    else
      (cdfStage remote upload_to_cdf file_objects overwrite ignore_meta, .ok ())

/-- The match-everything pattern (default `"*"`; `pathlib` glob patterns do
match leading dots, which is why the code filters them separately). -/
def patAll : String → Bool := fun _ => true

/-- Concrete fixture: two root-level files for the blob-uploader witness. -/
def wObjs : List FileWithMeta :=
  [⟨["r", "a.txt"], "a.txt", "a.txt", some "text/plain", []⟩,
   ⟨["r", "b.txt"], "b.txt", "b.txt", some "text/plain", []⟩]

/-- Concrete fixture: a remote store that fails the first upload request. -/
def wRemote : Nat → UploadReq → Except String String :=
  fun i _ => if i = 0 then .error "boom" else .ok "receipt"

/-- Concrete fixture: a one-file snapshot. -/
def cFS : FS := [⟨["r", "f.txt"], true⟩]

/-- Concrete fixture: a raw store whose batch insert always fails. -/
def cInsertFail : InsertOp → Except String Unit := fun _ => .error "boom"

/-- Concrete fixture: a blob store that accepts every upload. -/
def cRemoteOk : Nat → UploadReq → Except String String :=
  fun _ _ => .ok "receipt"

theorem joinSegs_nil : joinSegs [] = [] := rfl

theorem joinSegs_single (a : List Char) : joinSegs [a] = a := rfl

theorem joinSegs_cons2 (a b : List Char) (rest : List (List Char)) :
    joinSegs (a :: b :: rest) = a ++ '/' :: joinSegs (b :: rest) := rfl

theorem relativeTo_some_elim {p root rel : SPath}
    (h : relativeTo p root = some rel) :
    root.isPrefixOf p = true ∧ rel = p.drop root.length ∧ p = root ++ rel := by
  unfold relativeTo at h
  split at h
  case isTrue hpre =>
    injection h with h
    subst h
    refine ⟨hpre, rfl, ?_⟩
    exact (List.prefix_iff_eq_append.mp (List.isPrefixOf_iff_prefix.mp hpre)).symm
  case isFalse hpre =>
    exact absurd h (by simp)

theorem append_slash_inj {a : List Char} : ∀ {b u v : List Char},
    '/' ∉ a → '/' ∉ b → a ++ '/' :: u = b ++ '/' :: v → a = b ∧ u = v := by
  induction a with
  | nil =>
    intro b u v _ hb h
    cases b with
    | nil => simpa using h
    | cons d ds =>
      exfalso
      simp only [List.nil_append, List.cons_append, List.cons.injEq] at h
      exact hb (h.1 ▸ List.mem_cons_self d ds)
  | cons c cs ih =>
    intro b u v ha hb h
    cases b with
    | nil =>
      exfalso
      simp only [List.nil_append, List.cons_append, List.cons.injEq] at h
      exact ha (h.1 ▸ List.mem_cons_self c cs)
    | cons d ds =>
      simp only [List.cons_append, List.cons.injEq] at h
      obtain ⟨rfl, h2⟩ := h
      have hrec := ih (fun hm => ha (List.mem_cons_of_mem _ hm))
        (fun hm => hb (List.mem_cons_of_mem _ hm)) h2
      exact ⟨by rw [hrec.1], hrec.2⟩

theorem joinSegs_inj : ∀ {l1 l2 : List (List Char)},
    (∀ a ∈ l1, a ≠ [] ∧ '/' ∉ a) → (∀ a ∈ l2, a ≠ [] ∧ '/' ∉ a) →
    joinSegs l1 = joinSegs l2 → l1 = l2 := by
  intro l1
  induction l1 with
  | nil =>
    intro l2 _ h2 h
    cases l2 with
    | nil => rfl
    | cons x xs =>
      exfalso
      cases xs with
      | nil => exact (h2 x (by simp)).1 (by simpa [joinSegs] using h.symm)
      | cons y ys =>
        rw [joinSegs_nil, joinSegs_cons2] at h
        simp at h
  | cons x xs ih =>
    intro l2 h1 h2 h
    cases l2 with
    | nil =>
      exfalso
      cases xs with
      | nil => exact (h1 x (by simp)).1 (by simpa [joinSegs] using h)
      | cons y ys =>
        rw [joinSegs_nil, joinSegs_cons2] at h
        simp at h
    | cons y ys =>
      cases xs with
      | nil =>
        cases ys with
        | nil =>
          rw [joinSegs_single, joinSegs_single] at h
          rw [h]
        | cons z zs =>
          exfalso
          rw [joinSegs_single, joinSegs_cons2] at h
          have hm : '/' ∈ y ++ '/' :: joinSegs (z :: zs) :=
            List.mem_append_right _ (List.mem_cons_self _ _)
          rw [← h] at hm
          exact (h1 x (by simp)).2 hm
      | cons x2 xs2 =>
        cases ys with
        | nil =>
          exfalso
          rw [joinSegs_cons2, joinSegs_single] at h
          have hm : '/' ∈ x ++ '/' :: joinSegs (x2 :: xs2) :=
            List.mem_append_right _ (List.mem_cons_self _ _)
          rw [h] at hm
          exact (h2 y (by simp)).2 hm
        | cons y2 ys2 =>
          rw [joinSegs_cons2, joinSegs_cons2] at h
          obtain ⟨rfl, hrest⟩ :=
            append_slash_inj (h1 x (by simp)).2 (h2 y (by simp)).2 h
          have htail := ih (fun a ha => h1 a (List.mem_cons_of_mem _ ha))
            (fun a ha => h2 a (List.mem_cons_of_mem _ ha)) hrest
          rw [htail]

theorem string_data_inj : Function.Injective String.data :=
  fun _ _ h => String.ext h

theorem renderPath_inj {l1 l2 : List String}
    (h1 : ∀ s ∈ l1, wfSeg s) (h2 : ∀ s ∈ l2, wfSeg s)
    (h : renderPath l1 = renderPath l2) : l1 = l2 := by
  unfold renderPath at h
  by_cases c1 : l1 = [] <;> by_cases c2 : l2 = []
  · rw [c1, c2]
  · exfalso
    rw [if_pos c1, if_neg c2] at h
    obtain ⟨x, xs, rfl⟩ : ∃ x xs, l2 = x :: xs := by
      cases l2 with
      | nil => exact absurd rfl c2
      | cons x xs => exact ⟨x, xs, rfl⟩
    have hd : ['.'] = joinSegs ((x :: xs).map String.data) := congrArg String.data h
    cases xs with
    | nil =>
      have hx : x.data = ['.'] := by simpa [joinSegs] using hd.symm
      exact (h2 x (by simp)).2.2 hx
    | cons y ys =>
      have hm : '/' ∈ joinSegs ((x :: y :: ys).map String.data) := by
        rw [List.map_cons, List.map_cons, joinSegs_cons2]
        exact List.mem_append_right _ (List.mem_cons_self _ _)
      rw [← hd] at hm
      simp at hm
  · exfalso
    rw [if_neg c1, if_pos c2] at h
    obtain ⟨x, xs, rfl⟩ : ∃ x xs, l1 = x :: xs := by
      cases l1 with
      | nil => exact absurd rfl c1
      | cons x xs => exact ⟨x, xs, rfl⟩
    have hd : joinSegs ((x :: xs).map String.data) = ['.'] := congrArg String.data h
    cases xs with
    | nil =>
      have hx : x.data = ['.'] := by simpa [joinSegs] using hd
      exact (h1 x (by simp)).2.2 hx
    | cons y ys =>
      have hm : '/' ∈ joinSegs ((x :: y :: ys).map String.data) := by
        rw [List.map_cons, List.map_cons, joinSegs_cons2]
        exact List.mem_append_right _ (List.mem_cons_self _ _)
      rw [hd] at hm
      simp at hm
  · rw [if_neg c1, if_neg c2] at h
    have hdata := congrArg String.data h
    have hmap := joinSegs_inj
      (fun a ha => by
        obtain ⟨s, hs, rfl⟩ := List.mem_map.mp ha
        exact ⟨(h1 s hs).1, (h1 s hs).2.1⟩)
      (fun a ha => by
        obtain ⟨s, hs, rfl⟩ := List.mem_map.mp ha
        exact ⟨(h2 s hs).1, (h2 s hs).2.1⟩)
      hdata
    exact List.map_injective_iff.mpr string_data_inj hmap

theorem isAbsolute_renderPath (l : List String) (hwf : ∀ s ∈ l, wfSeg s) :
    isAbsolute (renderPath l) = false := by
  cases l with
  | nil => rfl
  | cons x xs =>
    have hx := hwf x (by simp)
    unfold renderPath
    rw [if_neg (by simp)]
    obtain ⟨t, ht⟩ : ∃ t, joinSegs ((x :: xs).map String.data) = x.data ++ t := by
      cases xs with
      | nil => exact ⟨[], by simp [joinSegs]⟩
      | cons y ys =>
        exact ⟨'/' :: joinSegs ((y :: ys).map String.data), rfl⟩
    unfold isAbsolute
    rw [ht]
    obtain ⟨c, cs, hc⟩ : ∃ c cs, x.data = c :: cs := by
      cases hd : x.data with
      | nil => exact absurd hd hx.1
      | cons c cs => exact ⟨c, cs, rfl⟩
    rw [hc]
    have hcne : c ≠ '/' := by
      intro hcc
      exact hx.2.1 (hc ▸ hcc ▸ List.mem_cons_self c cs)
    simpa using hcne

theorem from_path_some_elim {mime : String → Option String}
    {resolve : SPath → SPath} {p root : SPath} {o : FileWithMeta}
    (h : FileWithMeta.from_path mime resolve p root = some o) :
    root.isPrefixOf p = true ∧ p = root ++ p.drop root.length ∧
      o.external_id = renderPath (p.drop root.length) := by
  unfold FileWithMeta.from_path at h
  cases hrel : relativeTo p root with
  | none => rw [hrel] at h; exact absurd h (by simp)
  | some rel =>
    rw [hrel] at h
    obtain ⟨hpre, hdrop, happ⟩ := relativeTo_some_elim hrel
    injection h with h
    subst h
    subst hdrop
    exact ⟨hpre, happ, rfl⟩

/-- C3: evaluation of the Descriptor Builder at the failing input.  For the
file `example.txt` directly under the root `r`, the code yields metadata
`{"folder": ".", "col0": "."}` — not the empty mapping the claim states —
because the rendered parent of a one-component relative path is the
non-empty string ".", so the empty-metadata branch is unreachable.  The
second conjunct records that the nested case `a/b/f.txt` does yield exactly
the claimed mapping. -/
theorem c3_root_metadata_eval :
    ((FileWithMeta.from_path mimeDefault (fun q => q) ["r", "example.txt"]
        ["r"]).map FileWithMeta.metadata
      = some [("folder", "."), ("col0", ".")]) ∧
    ((FileWithMeta.from_path mimeDefault (fun q => q) ["r", "a", "b", "f.txt"]
        ["r"]).map FileWithMeta.metadata
      = some [("folder", "a/b"), ("col0", "a"), ("col1", "b")]) := by
  decide

/-- C4: for every (path, root) pair with the path under the root (the
builder succeeds exactly then), the descriptor's `external_id` is the
relative path of `path` with respect to `root` rendered with the
forward-slash separator, and it is never an absolute path. -/
theorem c4_external_id_relative (mime : String → Option String)
    (resolve : SPath → SPath) (p root : SPath) (o : FileWithMeta)
    (hwf : ∀ s ∈ p.drop root.length, wfSeg s)
    (h : FileWithMeta.from_path mime resolve p root = some o) :
    o.external_id = renderPath (p.drop root.length) ∧
      isAbsolute o.external_id = false := by
  obtain ⟨-, -, hid⟩ := from_path_some_elim h
  exact ⟨hid, hid ▸ isAbsolute_renderPath _ hwf⟩

/-- Witness for C4 at the spec's own example: the descriptor of
`recursive/hidden.pdf` under root `r`. -/
theorem c4_external_id_relative_witness :
    ("recursive/hidden.pdf" : String) = renderPath ["recursive", "hidden.pdf"] ∧
      isAbsolute ("recursive/hidden.pdf" : String) = false :=
  c4_external_id_relative mimeDefault (fun q => q)
    ["r", "recursive", "hidden.pdf"] ["r"]
    ⟨["r", "recursive", "hidden.pdf"], "recursive/hidden.pdf", "hidden.pdf",
      some "application/pdf", [("folder", "recursive"), ("col0", "recursive")]⟩
    (by decide) (by decide)

/-- C5: every path returned by the Path Matcher is a regular file of the
snapshot and its base name does not start with ".", for every root, pattern
and recursion flag. -/
theorem c5_match_files_filters (fs : FS) (root : SPath)
    (pat : String → Bool) (recursive : Bool) (p : SPath)
    (h : p ∈ match_files fs root pat recursive) :
    is_file fs p = true ∧ startsWithDot (pname p) = false := by
  unfold match_files at h
  have hc := (List.mem_filter.mp h).2
  rw [Bool.and_eq_true] at hc
  exact ⟨hc.1, by simpa using hc.2⟩

/-- Witness for C5 on a snapshot holding a regular file, a hidden file and a
directory: the returned path is the regular, non-hidden file. -/
theorem c5_match_files_filters_witness :
    is_file [⟨["r", "a.txt"], true⟩, ⟨["r", ".h"], true⟩, ⟨["r", "d"], false⟩]
        ["r", "a.txt"] = true ∧
      startsWithDot (pname ["r", "a.txt"]) = false :=
  c5_match_files_filters
    [⟨["r", "a.txt"], true⟩, ⟨["r", ".h"], true⟩, ⟨["r", "d"], false⟩]
    ["r"] patAll true ["r", "a.txt"] (by decide)

/-- C6: the Descriptor Builder is deterministic — `external_id`, `metadata`
and `content_type` are a pure function of the path and root (for the fixed
static extension table), even across different filesystem-resolution
states, so two invocations on the same inputs yield identical values. -/
theorem c6_from_path_deterministic (mime : String → Option String)
    (r1 r2 : SPath → SPath) (p root : SPath) :
    (FileWithMeta.from_path mime r1 p root).map
        (fun o => (o.external_id, o.metadata, o.mime_type))
      = (FileWithMeta.from_path mime r2 p root).map
        (fun o => (o.external_id, o.metadata, o.mime_type)) := by
  unfold FileWithMeta.from_path
  cases relativeTo p root <;> rfl

/-- C10: the Descriptor Builder derives every field except the stored path
from the path argument exactly as supplied — the result equals the
identity-resolution result with only the `path` field replaced by the
resolved form — and there is a resolution function (a symlink) under which
the stored path differs from the root joined with the relative path that
yields `external_id`. -/
theorem c10_resolve_independence :
    (∀ (mime : String → Option String) (resolve : SPath → SPath)
        (p root : SPath),
      FileWithMeta.from_path mime resolve p root
        = (FileWithMeta.from_path mime (fun q => q) p root).map
            (fun o => { o with path := resolve p })) ∧
    (∃ (resolve : SPath → SPath) (p root : SPath) (o : FileWithMeta),
      FileWithMeta.from_path mimeDefault resolve p root = some o ∧
        o.path ≠ root ++ p.drop root.length) := by
  constructor
  · intro mime resolve p root
    unfold FileWithMeta.from_path
    cases relativeTo p root <;> rfl
  · exact ⟨fun _ => ["elsewhere", "t.txt"], ["r", "link.txt"], ["r"],
      ⟨["elsewhere", "t.txt"], "link.txt", "link.txt", some "text/plain",
        [("folder", "."), ("col0", ".")]⟩,
      by decide, by decide⟩

theorem uploadLoop_starts (remote : Nat → UploadReq → Except String String)
    (ow im : Bool) : ∀ (i : Nat) (objs : List FileWithMeta),
    starts (uploadLoop remote ow im i objs) = objs.map FileWithMeta.path := by
  intro i objs
  induction objs generalizing i with
  | nil => rfl
  | cons o rest ih =>
    unfold uploadLoop starts
    cases remote i (mkReq ow im o) with
    | error e =>
      simpa [List.filterMap_cons, startPath, starts] using ih (i + 1)
    | ok r =>
      simpa [List.filterMap_cons, startPath, starts] using ih (i + 1)

theorem uploadLoop_length (remote : Nat → UploadReq → Except String String)
    (ow im : Bool) : ∀ (i : Nat) (objs : List FileWithMeta),
    (uploadLoop remote ow im i objs).length = 2 * objs.length := by
  intro i objs
  induction objs generalizing i with
  | nil => rfl
  | cons o rest ih =>
    unfold uploadLoop
    cases remote i (mkReq ow im o) with
    | error e => simp [ih (i + 1)]; omega
    | ok r => simp [ih (i + 1)]; omega

theorem uploadLoop_error_mem (remote : Nat → UploadReq → Except String String)
    (ow im : Bool) : ∀ (objs : List FileWithMeta) (i k : Nat)
    (hk : k < objs.length) (e : String),
    remote (i + k) (mkReq ow im (objs.get ⟨k, hk⟩)) = .error e →
    Event.uploadError (objs.get ⟨k, hk⟩).external_id e ∈
      uploadLoop remote ow im i objs := by
  intro objs
  induction objs with
  | nil => intro i k hk; exact absurd hk (by simp)
  | cons o rest ih =>
    intro i k hk e hfail
    cases k with
    | zero =>
      have hfail0 : remote i (mkReq ow im o) = .error e := by simpa using hfail
      unfold uploadLoop
      rw [hfail0]
      simp
    | succ k2 =>
      have hk2 : k2 < rest.length := by simpa using hk
      have hfail2 : remote ((i + 1) + k2)
          (mkReq ow im (rest.get ⟨k2, hk2⟩)) = .error e := by
        rw [show (i + 1) + k2 = i + (k2 + 1) by omega]
        exact hfail
      have hmem := ih (i + 1) k2 hk2 e hfail2
      unfold uploadLoop
      cases remote i (mkReq ow im o) with
      | error e2 => exact List.mem_cons_of_mem _ (List.mem_cons_of_mem _ hmem)
      | ok r => exact List.mem_cons_of_mem _ (List.mem_cons_of_mem _ hmem)

/-- C1: for every batch and every remote behaviour that fails item k's
upload request with a request-level error, the Blob Uploader still attempts
every item in order (the start events list every path), the failure is
logged as an error event carrying item k's `external_id` and the error
detail, and the loop runs to completion — the call returns its full event
log (two events per item) instead of failing. -/
theorem c1_upload_isolation (remote : Nat → UploadReq → Except String String)
    (objects : List FileWithMeta) (ow im : Bool) (k : Nat) (e : String)
    (hk : k < objects.length)
    (hfail : remote k (mkReq ow im (objects.get ⟨k, hk⟩)) = .error e) :
    starts (upload_files_to_cdf remote objects ow im)
        = objects.map FileWithMeta.path ∧
      Event.uploadError (objects.get ⟨k, hk⟩).external_id e ∈
        upload_files_to_cdf remote objects ow im ∧
      (upload_files_to_cdf remote objects ow im).length
        = 2 * objects.length := by
  refine ⟨uploadLoop_starts remote ow im 0 objects, ?_,
    uploadLoop_length remote ow im 0 objects⟩
  exact uploadLoop_error_mem remote ow im objects 0 k hk e (by simpa using hfail)

/-- Witness for C1: a two-file batch whose first upload fails; both items
are attempted and the error is attributed to the first item's id. -/
theorem c1_upload_isolation_witness :
    starts (upload_files_to_cdf wRemote wObjs true false)
        = wObjs.map FileWithMeta.path ∧
      Event.uploadError (wObjs.get ⟨0, by decide⟩).external_id "boom" ∈
        upload_files_to_cdf wRemote wObjs true false ∧
      (upload_files_to_cdf wRemote wObjs true false).length
        = 2 * wObjs.length :=
  c1_upload_isolation wRemote wObjs true false 0 "boom" (by decide) (by rfl)

/-- C2 counterexample: a run with both channels enabled over a one-file
snapshot, where the raw batch insert fails; `process_path` ends with the
propagated error after the insert call, and the blob-upload stage is never
invoked — no upload-start event occurs, refuting the claim that a metadata
publish failure does not prevent the blob stage. -/
theorem c2_counterexample :
    process_path cFS mimeDefault (fun q => q) cInsertFail cRemoteOk
        ["r"] patAll true true true true false "db" "tbl"
      = ([Event.insertCall ⟨"db", "tbl",
            [⟨"f.txt", [("name", "f.txt"), ("external_id", "f.txt"),
              ("mime_type", "text/plain"), ("folder", "."), ("col0", ".")]⟩],
            true⟩],
         Except.error "boom") ∧
    Event.uploadStart ["r", "f.txt"] ∉
      (process_path cFS mimeDefault (fun q => q) cInsertFail cRemoteOk
        ["r"] patAll true true true true false "db" "tbl").1 :=
  ⟨rfl, by decide⟩

/-- C2 amended: in every run with the raw channel enabled, a failure of the
metadata batch publish propagates out of `process_path` — the run ends with
that error right after the insert call and the blob-upload stage is NOT
invoked, whether or not the blob channel is enabled.  Only per-item errors
inside the blob stage are isolated. -/
theorem c2_raw_failure_blocks_upload (fs : FS)
    (mime : String → Option String) (resolve : SPath → SPath)
    (insertResult : InsertOp → Except String Unit)
    (remote : Nat → UploadReq → Except String String)
    (root : SPath) (pat : String → Bool) (recursive upload_to_cdf ow im : Bool)
    (db tbl : String) (objs : List FileWithMeta) (e : String)
    (hconv : convert_to_file_objects mime resolve root
        (match_files fs root pat recursive) = some objs)
    (hins : insertResult (upload_metadata_to_raw objs db tbl)
        = Except.error e) :
    process_path fs mime resolve insertResult remote root pat recursive
        upload_to_cdf true ow im db tbl
      = ([Event.insertCall (upload_metadata_to_raw objs db tbl)],
         Except.error e) := by
  unfold process_path
  rw [hconv]
  simp only [if_true]
  rw [hins]

/-- Witness for C2's amended claim on the concrete one-file snapshot with a
failing raw store and the blob channel disabled. -/
theorem c2_raw_failure_blocks_upload_witness :
    process_path cFS mimeDefault (fun q => q) cInsertFail cRemoteOk
        ["r"] patAll true false true true false "db" "tbl"
      = ([Event.insertCall (upload_metadata_to_raw
            [⟨["r", "f.txt"], "f.txt", "f.txt", some "text/plain",
              [("folder", "."), ("col0", ".")]⟩] "db" "tbl")],
         Except.error "boom") :=
  c2_raw_failure_blocks_upload cFS mimeDefault (fun q => q) cInsertFail
    cRemoteOk ["r"] patAll true false true false "db" "tbl"
    [⟨["r", "f.txt"], "f.txt", "f.txt", some "text/plain",
      [("folder", "."), ("col0", ".")]⟩] "boom" (by decide) (by rfl)

theorem filter_sublist_mono {α : Type} (p q : α → Bool) (l : List α)
    (himp : ∀ a, p a = true → q a = true) :
    (l.filter p).Sublist (l.filter q) := by
  induction l with
  | nil => simp
  | cons a t ih =>
    by_cases hp : p a = true
    · rw [List.filter_cons_of_pos hp, List.filter_cons_of_pos (himp a hp)]
      exact ih.cons₂ a
    · rw [List.filter_cons_of_neg (by simpa using hp)]
      by_cases hq : q a = true
      · rw [List.filter_cons_of_pos hq]
        exact ih.cons a
      · rw [List.filter_cons_of_neg (by simpa using hq)]
        exact ih

/-- C7 counterexample: on a snapshot whose only file sits directly under the
root, the non-recursive and recursive matches return the same non-empty
list, so the non-recursive result is not a STRICT subset of the recursive
one. -/
theorem c7_counterexample :
    match_files cFS ["r"] patAll false = match_files cFS ["r"] patAll true ∧
      match_files cFS ["r"] patAll false = [["r", "f.txt"]] := by
  decide

/-- C7 amended: for every snapshot, root and pattern, the non-recursive
result is a (not necessarily strict) sublist of the recursive result, and it
consists of exactly those recursive results that are direct children of the
root. -/
theorem glob_false (fs : FS) (root : SPath) (pat : String → Bool) :
    glob fs root pat false = (fs.map Entry.segs).filter (fun p =>
      root.isPrefixOf p && (p.length == root.length + 1) && pat (pname p)) :=
  rfl

theorem glob_true (fs : FS) (root : SPath) (pat : String → Bool) :
    glob fs root pat true = (fs.map Entry.segs).filter (fun p =>
      root.isPrefixOf p && decide (root.length < p.length) && pat (pname p)) :=
  rfl

theorem c7_nonrecursive_direct_children (fs : FS) (root : SPath)
    (pat : String → Bool) :
    (match_files fs root pat false).Sublist (match_files fs root pat true) ∧
      ∀ p : SPath, p ∈ match_files fs root pat false ↔
        (p ∈ match_files fs root pat true ∧
          p.length = root.length + 1) := by
  constructor
  · unfold match_files
    rw [glob_false, glob_true, List.filter_filter, List.filter_filter]
    apply filter_sublist_mono
    intro a ha
    simp only [Bool.and_eq_true] at ha ⊢
    obtain ⟨hP, ⟨hpre, hbeq⟩, hpat⟩ := ha
    have hlen : a.length = root.length + 1 := beq_iff_eq.mp hbeq
    refine ⟨hP, ⟨hpre, ?_⟩, hpat⟩
    simp only [decide_eq_true_eq]
    omega
  · intro p
    unfold match_files
    rw [glob_false, glob_true]
    simp only [List.mem_filter, Bool.and_eq_true, decide_eq_true_eq]
    constructor
    · rintro ⟨⟨hbase, ⟨hpre, hbeq⟩, hpat⟩, hP⟩
      have hlen : p.length = root.length + 1 := beq_iff_eq.mp hbeq
      exact ⟨⟨⟨hbase, ⟨hpre, by omega⟩, hpat⟩, hP⟩, hlen⟩
    · rintro ⟨⟨⟨hbase, ⟨hpre, hlt⟩, hpat⟩, hP⟩, hlen⟩
      refine ⟨⟨hbase, ⟨hpre, ?_⟩, hpat⟩, hP⟩
      rw [hlen]
      exact beq_self_eq_true _

theorem dictInsert_fresh (d : List (String × String)) (k v : String)
    (h : ∀ kv ∈ d, kv.1 ≠ k) : dictInsert d k v = d ++ [(k, v)] := by
  unfold dictInsert
  rw [if_neg]
  intro hany
  obtain ⟨kv, hmem, hbeq⟩ := List.any_eq_true.mp hany
  exact h kv hmem (by simpa using hbeq)

theorem dictUpdate_append : ∀ (u d : List (String × String)),
    (∀ kv ∈ u, ∀ ab ∈ d, ab.1 ≠ kv.1) → (u.map Prod.fst).Nodup →
    dictUpdate d u = d ++ u := by
  intro u
  induction u with
  | nil => intro d _ _; simp [dictUpdate]
  | cons kv rest ih =>
    intro d hdisj hnodup
    have hnd : kv.1 ∉ rest.map Prod.fst ∧ (rest.map Prod.fst).Nodup := by
      rw [List.map_cons, List.nodup_cons] at hnodup
      exact hnodup
    unfold dictUpdate
    rw [List.foldl_cons,
      dictInsert_fresh d kv.1 kv.2 (fun ab hab => hdisj kv (by simp) ab hab)]
    have hd2 : ∀ kv2 ∈ rest, ∀ ab ∈ d ++ [(kv.1, kv.2)], ab.1 ≠ kv2.1 := by
      intro kv2 h2 ab hab
      rcases List.mem_append.mp hab with hL | hR
      · exact hdisj kv2 (List.mem_cons_of_mem _ h2) ab hL
      · have hab2 : ab = (kv.1, kv.2) := by simpa using hR
        subst hab2
        intro heq
        exact hnd.1 (heq ▸ List.mem_map.mpr ⟨kv2, h2, rfl⟩)
    have hrest := ih (d ++ [(kv.1, kv.2)]) hd2 hnd.2
    unfold dictUpdate at hrest
    rw [hrest, List.append_assoc]
    rfl

theorem raw_columns_shape (o : FileWithMeta)
    (hmime : o.mime_type ≠ some "")
    (hkeys : ∀ kv ∈ o.metadata,
      kv.1 ≠ "name" ∧ kv.1 ≠ "external_id" ∧ kv.1 ≠ "mime_type")
    (hnodup : (o.metadata.map Prod.fst).Nodup) :
    o.raw_columns = [("name", o.name), ("external_id", o.external_id)] ++
      (match o.mime_type with
       | some m => [("mime_type", m)]
       | none => []) ++ o.metadata := by
  unfold FileWithMeta.raw_columns
  cases hm : o.mime_type with
  | none =>
    rw [dictUpdate_append o.metadata _
      (fun kv hkv ab hab => by
        have hk := hkeys kv hkv
        rcases List.mem_cons.mp hab with rfl | hab2
        · exact fun hc => hk.1 hc.symm
        · have hab3 : ab = ("external_id", o.external_id) := by simpa using hab2
          subst hab3
          exact fun hc => hk.2.1 hc.symm)
      hnodup]
    simp
  | some m =>
    have hm2 : ¬m = "" := fun hc => hmime (by rw [hm, hc])
    dsimp only
    rw [if_neg hm2,
      dictInsert_fresh _ _ _ (by
        intro ab hab
        rcases List.mem_cons.mp hab with rfl | hab2
        · exact (by decide : ("name" : String) ≠ "mime_type")
        · have hab3 : ab = ("external_id", o.external_id) := by simpa using hab2
          subst hab3
          exact (by decide : ("external_id" : String) ≠ "mime_type")),
      dictUpdate_append o.metadata _
      (fun kv hkv ab hab => by
        have hk := hkeys kv hkv
        rcases List.mem_append.mp hab with hL | hR
        · rcases List.mem_cons.mp hL with rfl | hL2
          · exact fun hc => hk.1 hc.symm
          · have hL3 : ab = ("external_id", o.external_id) := by simpa using hL2
            subst hL3
            exact fun hc => hk.2.1 hc.symm
        · have hR2 : ab = ("mime_type", m) := by simpa using hR
          subst hR2
          exact fun hc => hk.2.2 hc.symm)
      hnodup]

/-- C8: the Metadata Publisher submits exactly one batch insert against the
named table, with table/parent creation requested (`ensure_parent = true`),
one row per descriptor keyed by its `external_id`, each row holding exactly
`name`, `external_id`, the `mime_type` key precisely when a content type is
present, and then all the descriptor's metadata entries — for descriptors
whose content type is never the empty string and whose metadata keys are
duplicate-free and distinct from the three fixed column names, as the
Descriptor Builder produces them. -/
theorem c8_raw_rows (objects : List FileWithMeta) (db tbl : String)
    (h : ∀ o ∈ objects, o.mime_type ≠ some "" ∧
        (∀ kv ∈ o.metadata,
          kv.1 ≠ "name" ∧ kv.1 ≠ "external_id" ∧ kv.1 ≠ "mime_type") ∧
        (o.metadata.map Prod.fst).Nodup) :
    upload_metadata_to_raw objects db tbl =
      ⟨db, tbl,
       objects.map (fun o => ⟨o.external_id,
         [("name", o.name), ("external_id", o.external_id)] ++
           (match o.mime_type with
            | some m => [("mime_type", m)]
            | none => []) ++ o.metadata⟩),
       true⟩ := by
  unfold upload_metadata_to_raw
  congr 1
  apply List.map_congr_left
  intro o ho
  obtain ⟨h1, h2, h3⟩ := h o ho
  rw [raw_columns_shape o h1 h2 h3]

/-- Witness for C8 on a two-descriptor batch, one with a content type and
one without. -/
theorem c8_raw_rows_witness :
    upload_metadata_to_raw
        [⟨["r", "a", "x.pdf"], "a/x.pdf", "x.pdf", some "application/pdf",
           [("folder", "a"), ("col0", "a")]⟩,
         ⟨["r", "y"], "y", "y", none, [("folder", "."), ("col0", ".")]⟩]
        "db" "t"
      = ⟨"db", "t",
         [⟨"a/x.pdf", [("name", "x.pdf"), ("external_id", "a/x.pdf"),
            ("mime_type", "application/pdf"), ("folder", "a"),
            ("col0", "a")]⟩,
          ⟨"y", [("name", "y"), ("external_id", "y"), ("folder", "."),
            ("col0", ".")]⟩],
         true⟩ :=
  c8_raw_rows
    [⟨["r", "a", "x.pdf"], "a/x.pdf", "x.pdf", some "application/pdf",
       [("folder", "a"), ("col0", "a")]⟩,
     ⟨["r", "y"], "y", "y", none, [("folder", "."), ("col0", ".")]⟩]
    "db" "t" (by decide)

/-- C9: the relative-path derivation of `external_id` is injective for a
fixed root — a batch of two distinct well-formed paths under the root is
converted by `convert_to_file_objects` to descriptors with different
`external_id` values, so the remote join key never collides within a run. -/
theorem c9_external_id_injective (mime : String → Option String)
    (resolve : SPath → SPath) (root p1 p2 : SPath) (o1 o2 : FileWithMeta)
    (hwf1 : ∀ s ∈ p1.drop root.length, wfSeg s)
    (hwf2 : ∀ s ∈ p2.drop root.length, wfSeg s)
    (hconv : convert_to_file_objects mime resolve root [p1, p2]
      = some [o1, o2])
    (hne : p1 ≠ p2) :
    o1.external_id ≠ o2.external_id := by
  unfold convert_to_file_objects at hconv
  cases h1 : FileWithMeta.from_path mime resolve p1 root with
  | none => rw [h1] at hconv; exact absurd hconv (by simp)
  | some a1 =>
    rw [h1] at hconv
    unfold convert_to_file_objects at hconv
    cases h2 : FileWithMeta.from_path mime resolve p2 root with
    | none => rw [h2] at hconv; exact absurd hconv (by simp)
    | some a2 =>
      rw [h2] at hconv
      simp only [convert_to_file_objects, Option.some.injEq,
        List.cons.injEq, and_true] at hconv
      obtain ⟨rfl, rfl, -⟩ := hconv
      obtain ⟨-, happ1, hid1⟩ := from_path_some_elim h1
      obtain ⟨-, happ2, hid2⟩ := from_path_some_elim h2
      intro heq
      rw [hid1, hid2] at heq
      exact hne (by rw [happ1, happ2, renderPath_inj hwf1 hwf2 heq])

/-- Witness for C9: two distinct paths under the same root receive distinct
external identifiers. -/
theorem c9_external_id_injective_witness :
    ("a/f.txt" : String) ≠ "f.txt" :=
  c9_external_id_injective mimeDefault (fun q => q) ["r"]
    ["r", "a", "f.txt"] ["r", "f.txt"]
    ⟨["r", "a", "f.txt"], "a/f.txt", "f.txt", some "text/plain",
      [("folder", "a"), ("col0", "a")]⟩
    ⟨["r", "f.txt"], "f.txt", "f.txt", some "text/plain",
      [("folder", "."), ("col0", ".")]⟩
    (by decide) (by decide) (by decide) (by decide)

end FileUploader
